import Mathlib

/-!
Shallow embedding of `src/finance_formulas.py` (Finance-Formulas repository).

Python floats are modelled as real numbers.  Operations that raise an
exception in Python are modelled as `Option`-valued primitives:
division by zero (`ZeroDivisionError`), `math.sqrt` of a negative number
(`ValueError`), and `0.0` raised to a negative power (`ZeroDivisionError`)
all return `none`.  Python's `**` with a negative base and a non-integral
exponent returns a complex number, so that primitive is `ℂ`-valued.
Each library function below mirrors the Python source line by line.
-/

/-- Python float division: `a / b` raises `ZeroDivisionError` when `b == 0`. -/
noncomputable def pyDiv (a b : ℝ) : Option ℝ :=
  if b = 0 then none else some (a / b)

/-- Python `math.sqrt`: raises `ValueError` on a negative argument. -/
noncomputable def pySqrt (x : ℝ) : Option ℝ :=
  if x < 0 then none else some (Real.sqrt x)

/-- Python `x ** k` for a float `x` and an integer `k`: raises
`ZeroDivisionError` when `x == 0` and `k < 0`. -/
noncomputable def pyZpow (x : ℝ) (k : ℤ) : Option ℝ :=
  if x = 0 ∧ k < 0 then none else some (x ^ k)

/-- Python `x ** y` for floats: raises `ZeroDivisionError` when `x == 0`
and `y < 0`; for a negative base and any exponent Python falls back to the
principal-branch complex power, so the result lives in `ℂ`. -/
noncomputable def pyPowC (x y : ℝ) : Option ℂ :=
  if x = 0 ∧ y < 0 then none else some ((x : ℂ) ^ (y : ℂ))

/-- `compounding_present_value(FV, r, n, compounding_frequency=1,
payment_at_beginning=False)`: both branches of the `if` compute
`FV / (1 + r/compounding_frequency)**n`. -/
noncomputable def compounding_present_value (FV r : ℝ) (n : ℕ)
    (compounding_frequency : ℝ) (payment_at_beginning : Bool) : Option ℝ :=
  if payment_at_beginning then do
    let q ← pyDiv r compounding_frequency
    pyDiv FV ((1 + q) ^ n)
  else do
    let q ← pyDiv r compounding_frequency
    pyDiv FV ((1 + q) ^ n)

/-- `compounding_future_value(PV, r, n, compounding_frequency=1,
payment_at_beginning=False)`: both branches compute
`PV * (1 + r/compounding_frequency)**n`. -/
noncomputable def compounding_future_value (PV r : ℝ) (n : ℕ)
    (compounding_frequency : ℝ) (payment_at_beginning : Bool) : Option ℝ :=
  if payment_at_beginning then do
    let q ← pyDiv r compounding_frequency
    pure (PV * (1 + q) ^ n)
  else do
    let q ← pyDiv r compounding_frequency
    pure (PV * (1 + q) ^ n)

/-- Claim C1: the `payment_at_beginning` flag has no effect on
`compounding_present_value` nor on `compounding_future_value`: for every
FV/PV, rate, period count and compounding frequency the two flag values
give the same result. -/
theorem payment_at_beginning_noop (A r : ℝ) (n : ℕ) (f : ℝ) :
    compounding_present_value A r n f true = compounding_present_value A r n f false ∧
    compounding_future_value A r n f true = compounding_future_value A r n f false := by
  constructor <;> rfl

/-- Claim C2, counterexample: at r = -1 (which satisfies r ≠ 0), n = 1,
PV = 1, the round trip fails: the future value is `1 * (1 + -1)^1 = 0` and
the present-value step divides by `(1 + -1)^1 = 0`, which in Python raises
`ZeroDivisionError` (here: `none`), so the composite does not return PV. -/
theorem round_trip_fails_at_r_neg_one :
    ((-1 : ℝ) ≠ 0) ∧
    (compounding_future_value 1 (-1) 1 1 false).bind
      (fun fv => compounding_present_value fv (-1) 1 1 false) ≠ some 1 := by
  constructor
  · norm_num
  · simp [compounding_future_value, compounding_present_value, pyDiv]

/-- Claim C2, amended: for all r ≠ 0 such that additionally 1 + r ≠ 0
(the original claim wrongly allowed r = -1), all n ≥ 0 and every PV,
`compounding_present_value(compounding_future_value(PV, r, n), r, n)`
returns PV, with the default compounding frequency 1 and default
`payment_at_beginning` false. -/
theorem round_trip_pv_fv (PV r : ℝ) (n : ℕ) (hr : r ≠ 0) (hr1 : 1 + r ≠ 0) :
    (compounding_future_value PV r n 1 false).bind
      (fun fv => compounding_present_value fv r n 1 false) = some PV := by
  have hpow : (1 + r) ^ n ≠ 0 := pow_ne_zero n hr1
  simp [compounding_future_value, compounding_present_value, pyDiv, hpow, hr1,
    mul_div_assoc, div_self hpow]

/-- Claim C2, witness: the amended round trip at PV = 5, r = 1, n = 2. -/
theorem round_trip_pv_fv_witness :
    (compounding_future_value 5 1 2 1 false).bind
      (fun fv => compounding_present_value fv 1 2 1 false) = some 5 :=
  round_trip_pv_fv 5 1 2 (by norm_num) (by norm_num)

/-- `annuity_present_value(PMT, r, n, annuity_due=False)`: annuity-due branch
computes `PMT * ((1 - (1 + r)**-n) / r) * (1 + r)`, ordinary branch computes
`PMT * ((1 - (1 + r)**-n) / r)`. -/
noncomputable def annuity_present_value (PMT r : ℝ) (n : ℕ) (annuity_due : Bool) :
    Option ℝ :=
  if annuity_due then do
    let p ← pyZpow (1 + r) (-(n : ℤ))
    let q ← pyDiv (1 - p) r
    pure (PMT * q * (1 + r))
  else do
    let p ← pyZpow (1 + r) (-(n : ℤ))
    let q ← pyDiv (1 - p) r
    pure (PMT * q)

/-- Claim C7: for every PMT, every r ≠ 0 with 1 + r ≠ 0, and every n, the
annuity-due present value equals the ordinary present value times (1 + r). -/
theorem annuity_due_pv_factor (PMT r : ℝ) (n : ℕ) (hr : r ≠ 0) (hr1 : 1 + r ≠ 0) :
    annuity_present_value PMT r n true =
      (annuity_present_value PMT r n false).map (fun x => x * (1 + r)) := by
  simp [annuity_present_value, pyZpow, pyDiv, hr, hr1]

/-- Claim C7, witness: at PMT = 1, r = 1, n = 1. -/
theorem annuity_due_pv_factor_witness :
    annuity_present_value 1 1 1 true =
      (annuity_present_value 1 1 1 false).map (fun x => x * (1 + 1)) :=
  annuity_due_pv_factor 1 1 1 (by norm_num) (by norm_num)

/-- `annuity_payment_from_future_value(FV, r, n, annuity_due=False)`:
annuity-due branch computes `FV * r / ((1 + r) * ((1 + r)**n - 1))`,
ordinary branch computes `FV * r / ((1 + r)**n - 1)`. -/
noncomputable def annuity_payment_from_future_value (FV r : ℝ) (n : ℕ)
    (annuity_due : Bool) : Option ℝ :=
  if annuity_due then pyDiv (FV * r) ((1 + r) * ((1 + r) ^ n - 1))
  else pyDiv (FV * r) ((1 + r) ^ n - 1)

/-- Claim C8: whenever (1+r)^n ≠ 1, the ordinary annuity payment from a
future value is FV·r/((1+r)^n − 1), and (additionally requiring 1 + r ≠ 0)
the annuity-due payment is exactly the ordinary value divided by (1 + r). -/
theorem annuity_payment_fv_formula (FV r : ℝ) (n : ℕ) (h : (1 + r) ^ n ≠ 1) :
    annuity_payment_from_future_value FV r n false =
      some (FV * r / ((1 + r) ^ n - 1)) ∧
    (1 + r ≠ 0 → annuity_payment_from_future_value FV r n true =
      some (FV * r / ((1 + r) ^ n - 1) / (1 + r))) := by
  have hd : (1 + r) ^ n - 1 ≠ 0 := sub_ne_zero.mpr h
  refine ⟨by simp [annuity_payment_from_future_value, pyDiv, hd], fun hr1 => ?_⟩
  have hprod : (1 + r) * ((1 + r) ^ n - 1) ≠ 0 := mul_ne_zero hr1 hd
  have hval : FV * r / ((1 + r) * ((1 + r) ^ n - 1)) =
      FV * r / ((1 + r) ^ n - 1) / (1 + r) := by
    rw [div_div, mul_comm ((1 + r) ^ n - 1) (1 + r)]
  simp [annuity_payment_from_future_value, pyDiv, hprod, hval]

/-- Claim C8, witness: at FV = 6, r = 1, n = 1 the ordinary payment is
6·1/(2−1) and the due payment is that value divided by 2. -/
theorem annuity_payment_fv_formula_witness :
    annuity_payment_from_future_value 6 1 1 false =
      some (6 * 1 / ((1 + 1) ^ 1 - 1)) ∧
    annuity_payment_from_future_value 6 1 1 true =
      some (6 * 1 / ((1 + 1) ^ 1 - 1) / (1 + 1)) :=
  ⟨(annuity_payment_fv_formula 6 1 1 (by norm_num)).1,
   (annuity_payment_fv_formula 6 1 1 (by norm_num)).2 (by norm_num)⟩

/-- `perpetuity_present_value(PMT, r)`: computes `PMT / r`. -/
noncomputable def perpetuity_present_value (PMT r : ℝ) : Option ℝ :=
  pyDiv PMT r

/-- Claim C9: the perpetuity present value is PMT / r for every r ≠ 0, and
at r = 0 the division-by-zero failure propagates to the caller (the
function does not catch, mask, or substitute a value for it). -/
theorem perpetuity_pv_formula (PMT r : ℝ) :
    (r ≠ 0 → perpetuity_present_value PMT r = some (PMT / r)) ∧
    perpetuity_present_value PMT 0 = none := by
  constructor
  · intro hr
    simp [perpetuity_present_value, pyDiv, hr]
  · simp [perpetuity_present_value, pyDiv]

/-- Claim C9, witness: at PMT = 100, r = 2, and at r = 0. -/
theorem perpetuity_pv_formula_witness :
    perpetuity_present_value 100 2 = some (100 / 2) ∧
    perpetuity_present_value 100 0 = none :=
  ⟨(perpetuity_pv_formula 100 2).1 (by norm_num), (perpetuity_pv_formula 100 2).2⟩

/-- `holding_period_return(initial_price, final_price, dividends)`:
computes `(final_price - initial_price + dividends) / initial_price`. -/
noncomputable def holding_period_return (initial_price final_price dividends : ℝ) :
    Option ℝ :=
  pyDiv (final_price - initial_price + dividends) initial_price

/-- `holding_period_yield(initial_investment, final_investment, income)`:
computes `(final_investment + income - initial_investment) / initial_investment`. -/
noncomputable def holding_period_yield
    (initial_investment final_investment income : ℝ) : Option ℝ :=
  pyDiv (final_investment + income - initial_investment) initial_investment

/-- Claim C10: `holding_period_return` and `holding_period_yield` are
extensionally equal: for every (a, b, c) with a ≠ 0 they return the same
value, both computing (b + c − a) / a. -/
theorem hpr_eq_hpy (a b c : ℝ) (ha : a ≠ 0) :
    holding_period_return a b c = holding_period_yield a b c := by
  have hnum : b - a + c = b + c - a := by ring
  simp [holding_period_return, holding_period_yield, pyDiv, hnum]

/-- Claim C10, witness: at (1, 2, 3). -/
theorem hpr_eq_hpy_witness :
    holding_period_return 1 2 3 = holding_period_yield 1 2 3 :=
  hpr_eq_hpy 1 2 3 (by norm_num)

/-- The list comprehension `[cf / (1 + rate)**n for n, cf in
enumerate(cash_flows)]` inside `npv_uneven_cash_flows`, with `k` the index
of the first remaining element. -/
noncomputable def npvTerms (rate : ℝ) : ℕ → List ℝ → Option (List ℝ)
  | _, [] => some []
  | k, cf :: rest => do
      let t ← pyDiv cf ((1 + rate) ^ k)
      let ts ← npvTerms rate (k + 1) rest
      pure (t :: ts)

/-- `npv_uneven_cash_flows(rate, cash_flows)`: sums the comprehension
`[cf / (1 + rate)**n for n, cf in enumerate(cash_flows)]` (Python `sum`
of an empty list is 0). -/
noncomputable def npv_uneven_cash_flows (rate : ℝ) (cash_flows : List ℝ) :
    Option ℝ :=
  (npvTerms rate 0 cash_flows).map List.sum

/-- Proof helper: the value of the comprehension when no division fails. -/
noncomputable def npvTermList (rate : ℝ) : ℕ → List ℝ → List ℝ
  | _, [] => []
  | k, cf :: rest => cf / (1 + rate) ^ k :: npvTermList rate (k + 1) rest

lemma npvTerms_eq_some (rate : ℝ) (h : 1 + rate ≠ 0) :
    ∀ (xs : List ℝ) (k : ℕ), npvTerms rate k xs = some (npvTermList rate k xs) := by
  intro xs
  induction xs with
  | nil => intro k; rfl
  | cons cf rest ih =>
      intro k
      have hpow : (1 + rate) ^ k ≠ 0 := pow_ne_zero k h
      simp [npvTerms, npvTermList, pyDiv, hpow, ih (k + 1)]

lemma npvTermList_sum (rate : ℝ) :
    ∀ (xs : List ℝ) (k : ℕ),
      (npvTermList rate k xs).sum =
        ∑ i : Fin xs.length, xs.get i / (1 + rate) ^ (k + (i : ℕ)) := by
  intro xs
  induction xs with
  | nil => intro k; simp [npvTermList]
  | cons cf rest ih =>
      intro k
      simp only [npvTermList, List.sum_cons, List.length_cons, Fin.sum_univ_succ,
        List.get, Fin.val_zero, Nat.add_zero, Fin.val_succ]
      rw [ih (k + 1)]
      congr 1
      apply Finset.sum_congr rfl
      intro i _
      congr 1
      congr 1
      omega

/-- Claim C6: for every rate with 1 + rate ≠ 0, `npv_uneven_cash_flows`
returns the sum over the 0-based index n of cash_flows[n] / (1 + rate)^n,
and for the empty sequence it returns 0 for any rate. -/
theorem npv_eq_discounted_sum (rate : ℝ) (xs : List ℝ) :
    (1 + rate ≠ 0 → npv_uneven_cash_flows rate xs =
      some (∑ i : Fin xs.length, xs.get i / (1 + rate) ^ (i : ℕ))) ∧
    npv_uneven_cash_flows rate [] = some 0 := by
  constructor
  · intro h
    rw [npv_uneven_cash_flows, npvTerms_eq_some rate h xs 0]
    simp [npvTermList_sum rate xs 0]
  · rfl

/-- Claim C6, witness: at rate = 1 with cash flows [2, 4], and the empty
sequence at the same rate. -/
theorem npv_eq_discounted_sum_witness :
    npv_uneven_cash_flows 1 [2, 4] =
      some (∑ i : Fin (([2, 4] : List ℝ).length),
        ([2, 4] : List ℝ).get i / (1 + 1) ^ (i : ℕ)) ∧
    npv_uneven_cash_flows 1 [] = some 0 :=
  ⟨(npv_eq_discounted_sum 1 [2, 4]).1 (by norm_num),
   (npv_eq_discounted_sum 1 [2, 4]).2⟩

/-- The loop in `time_weighted_rate_of_return`: `placeholder` starts at 1
and is multiplied by `math.sqrt(1 + i)` for each sub-period return `i`. -/
noncomputable def twrrLoop (placeholder : ℝ) : List ℝ → Option ℝ
  | [] => some placeholder
  | i :: rest => do
      let s ← pySqrt (1 + i)
      twrrLoop (placeholder * s) rest

/-- `time_weighted_rate_of_return(sub_period_returns)`: runs the loop from
1 and subtracts 1 from the final product. -/
noncomputable def time_weighted_rate_of_return (sub_period_returns : List ℝ) :
    Option ℝ :=
  (twrrLoop 1 sub_period_returns).map (fun p => p - 1)

lemma twrrLoop_eq_some (xs : List ℝ) :
    ∀ acc : ℝ, (∀ x ∈ xs, 0 ≤ 1 + x) →
      twrrLoop acc xs = some (acc * (xs.map (fun x => Real.sqrt (1 + x))).prod) := by
  induction xs with
  | nil => intro acc _; simp [twrrLoop]
  | cons i rest ih =>
      intro acc h
      have hi : ¬ 1 + i < 0 := not_lt.mpr (h i (List.mem_cons_self i rest))
      have hrest : ∀ x ∈ rest, 0 ≤ 1 + x := fun x hx => h x (List.mem_cons_of_mem i hx)
      simp [twrrLoop, pySqrt, hi, ih _ hrest, mul_assoc]

lemma twrrLoop_eq_none (xs : List ℝ) :
    ∀ acc : ℝ, (∃ x ∈ xs, 1 + x < 0) → twrrLoop acc xs = none := by
  induction xs with
  | nil => intro acc h; simp at h
  | cons i rest ih =>
      intro acc h
      by_cases hi : 1 + i < 0
      · simp [twrrLoop, pySqrt, hi]
      · obtain ⟨x, hx, hxlt⟩ := h
        rcases List.mem_cons.mp hx with hxi | hxr
        · exact absurd (hxi ▸ hxlt) hi
        · simp [twrrLoop, pySqrt, hi, ih _ ⟨x, hxr, hxlt⟩]

/-- Claim C4: whenever every sub-period return r satisfies 1 + r ≥ 0,
`time_weighted_rate_of_return` returns the product over all elements of
sqrt(1 + r), minus 1; for the empty sequence the product is 1 and the
result is 0. -/
theorem twrr_eq_prod_sqrt (xs : List ℝ) (h : ∀ x ∈ xs, 0 ≤ 1 + x) :
    time_weighted_rate_of_return xs =
      some ((xs.map (fun x => Real.sqrt (1 + x))).prod - 1) := by
  rw [time_weighted_rate_of_return, twrrLoop_eq_some xs 1 h]
  simp

/-- Claim C4, witness: the empty sequence gives product 1, result 0. -/
theorem twrr_eq_prod_sqrt_witness : time_weighted_rate_of_return [] = some 0 := by
  have h := twrr_eq_prod_sqrt [] (by simp)
  simpa using h

/-- Claim C5: `time_weighted_rate_of_return` is invariant under permutation
of its input sequence: any reordering of the sub-period returns yields the
same result. -/
theorem twrr_perm_invariant (xs ys : List ℝ) (h : List.Perm xs ys) :
    time_weighted_rate_of_return xs = time_weighted_rate_of_return ys := by
  by_cases hall : ∀ x ∈ xs, 0 ≤ 1 + x
  · have hall' : ∀ x ∈ ys, 0 ≤ 1 + x := fun x hx => hall x (h.mem_iff.mpr hx)
    rw [twrr_eq_prod_sqrt xs hall, twrr_eq_prod_sqrt ys hall',
      List.Perm.prod_eq (h.map (fun x => Real.sqrt (1 + x)))]
  · push_neg at hall
    obtain ⟨x, hx, hxlt⟩ := hall
    rw [time_weighted_rate_of_return, time_weighted_rate_of_return,
      twrrLoop_eq_none xs 1 ⟨x, hx, hxlt⟩,
      twrrLoop_eq_none ys 1 ⟨x, h.mem_iff.mp hx, hxlt⟩]

/-- Claim C5, witness: swapping a two-element sequence. -/
theorem twrr_perm_invariant_witness :
    time_weighted_rate_of_return [(2 : ℝ), 1] =
      time_weighted_rate_of_return [1, 2] :=
  twrr_perm_invariant [2, 1] [1, 2] (List.Perm.swap 1 2 [])

/-- `effective_annual_yield(initial_investment, final_investment, income,
days_to_maturity)`: computes `(1 + ((final_investment + income -
initial_investment) / initial_investment)) ** (365/days_to_maturity) - 1`.
The power is the `ℂ`-valued `pyPowC`, since Python's `**` falls back to
the complex principal branch for a negative base. -/
noncomputable def effective_annual_yield
    (initial_investment final_investment income days_to_maturity : ℝ) :
    Option ℂ := do
  let hpy ← pyDiv (final_investment + income - initial_investment) initial_investment
  let ex ← pyDiv 365 days_to_maturity
  let p ← pyPowC (1 + hpy) ex
  pure (p - 1)

lemma cpow_im_ne_zero (x y : ℝ) (hx : x < 0) (hy : ¬ ∃ k : ℤ, y = (k : ℝ)) :
    ((x : ℂ) ^ (y : ℂ)).im ≠ 0 := by
  have hx0 : (x : ℂ) ≠ 0 := Complex.ofReal_ne_zero.mpr (ne_of_lt hx)
  rw [Complex.cpow_def_of_ne_zero hx0, Complex.exp_im]
  have him : (Complex.log x * (y : ℂ)).im = Real.pi * y := by
    rw [Complex.mul_im]
    simp [Complex.log_im, Complex.arg_ofReal_of_neg hx]
  rw [him]
  refine mul_ne_zero (Real.exp_ne_zero _) (fun hsin => ?_)
  rw [Real.sin_eq_zero_iff] at hsin
  obtain ⟨n, hn⟩ := hsin
  refine hy ⟨n, ?_⟩
  have hpi := Real.pi_ne_zero
  have : Real.pi * y = Real.pi * (n : ℝ) := by rw [← hn]; ring
  exact (mul_left_cancel₀ hpi this).symm ▸ rfl

/-- Claim C3: whenever the base 1 + (final + income − initial)/initial is
negative and the exponent 365/days_to_maturity is not an integer (with
initial ≠ 0 and days_to_maturity ≠ 0 so the divisions succeed),
`effective_annual_yield` does not produce an ordinary real numeric result:
the value Python returns is a complex number with nonzero imaginary part. -/
theorem effective_annual_yield_nonreal (a b c d : ℝ) (ha : a ≠ 0) (hd : d ≠ 0)
    (hbase : 1 + (b + c - a) / a < 0)
    (hexp : ¬ ∃ k : ℤ, (365 : ℝ) / d = (k : ℝ)) :
    ∃ z : ℂ, effective_annual_yield a b c d = some z ∧ z.im ≠ 0 := by
  have hb0 : (1 + (b + c - a) / a) ≠ 0 := ne_of_lt hbase
  refine ⟨((1 + (b + c - a) / a : ℝ) : ℂ) ^ ((365 / d : ℝ) : ℂ) - 1, ?_, ?_⟩
  · simp [effective_annual_yield, pyDiv, pyPowC, ha, hd, hb0]
  · rw [Complex.sub_im, Complex.one_im, sub_zero]
    exact cpow_im_ne_zero _ _ hbase hexp

/-- Claim C3, witness: initial = 1, final = −1, income = 0, days = 730; the
base is −1 and the exponent 365/730 = 1/2 is not an integer. -/
theorem effective_annual_yield_nonreal_witness :
    ∃ z : ℂ, effective_annual_yield 1 (-1) 0 730 = some z ∧ z.im ≠ 0 := by
  refine effective_annual_yield_nonreal 1 (-1) 0 730 (by norm_num) (by norm_num)
    (by norm_num) ?_
  intro hex
  obtain ⟨k, hk⟩ := hex
  have h2 : (365 : ℝ) / 730 = 1 / 2 := by norm_num
  rw [h2] at hk
  have h3 : (1 : ℝ) = 2 * (k : ℝ) := by linarith
  have h4 : (1 : ℤ) = 2 * k := by exact_mod_cast h3
  omega
